import Mathlib

/-!
Shallow embedding of `src/clica/interface/states.py`: the interactive state
machine of the terminal controller (Example editing state, agent turn driver,
train checkpoint tracker, menu dispatch, save/load/eval flows).

External collaborators (tokenizer codec, agent, database log store, curses
input) are modelled as explicit function parameters; machine state mutated in
place in Python is threaded as explicit values.  The trace of
`cli._env_enact(action, source)` calls is recorded as a list of action ids in
the order the calls happen.
-/

/-- State identifiers, one per `CLIState` subclass in the source
(`state_id` fields).  `menu` is `MenuState`, `exitProgram` is `ExitState`. -/
inductive StateId where
  | prompt
  | autoPrompt
  | example
  | autoSolve
  | exitProgram
  | agentTurn
  | train
  | saveModel
  | loadModel
  | resetSession
  | evalMode
  | menu
deriving DecidableEq

/-- The external text/action codec and key-token constants used by
`ExampleState.handle_execution`: `enc` is `cli.agent.tokenizer.encode`,
`ids` is `cli.agent.tokenizer.convert_tokens_to_ids`, `cmds` is
`COMMAND_TOKENS`, `enterTok` is `KEY_ENTER_TOKEN` and `ctrlRightTok` is
`KEY_CTRL_RIGHT_TOKEN` (all imported from `clica.interface.inputs`). -/
structure Codec where
  enc : String → List Nat
  ids : String → Nat
  cmds : List String
  enterTok : String
  ctrlRightTok : String

/-- The mutable state of `ExampleState.handle_execution`'s inner loop:
`insertQueue` is `cli.insert_queue`, `queuedActions` is the local
`queued_actions` list, and `enacted` is the trace of `cli._env_enact`
calls made so far (action ids, in call order). -/
structure ExState where
  insertQueue : String
  queuedActions : List Nat
  enacted : List Nat
deriving DecidableEq

/-- The head of the source loop: while `queued_actions` is non-empty, pop the
first element and enact it (`action_id = queued_actions.pop(0);
cli._env_enact(action_id, ActionSource.HUMAN)`).  Returns the final trace. -/
def drainQueue (enacted : List Nat) : List Nat → List Nat
  | [] => enacted
  | a :: rest => drainQueue (enacted ++ [a]) rest

/-- One key-handling step of `ExampleState.handle_execution` (the part of the
loop body after a key has been read).  Returns the new state and `true` when
the source executes `break` (escape).  Branches mirror the source in order:
escape, `KEY_RESIZE`, `KEY_CTRL_RIGHT_TOKEN`, plain text
(`key not in COMMAND_TOKENS`), command token with pending text, plain
command token. -/
def exampleHandleKey (C : Codec) (st : ExState) (k : String) : ExState × Bool :=
  if k = "\x1b" then
    if st.insertQueue.length > 0 then
      (⟨"", st.queuedActions ++ [C.ids C.enterTok],
        st.enacted ++ C.enc st.insertQueue⟩, true)
    else (st, true)
  else if k = "KEY_RESIZE" then (st, false)
  else if k = C.ctrlRightTok then
    (⟨"", st.queuedActions ++ C.enc st.insertQueue ++ [C.ids C.enterTok],
      st.enacted⟩, false)
  else if !(C.cmds.contains k) then
    (⟨st.insertQueue ++ k, st.queuedActions, st.enacted⟩, false)
  else if st.insertQueue.length > 0 then
    (⟨"", st.queuedActions ++ C.enc st.insertQueue ++ [C.ids C.enterTok, C.ids k],
      st.enacted⟩, false)
  else (⟨st.insertQueue, st.queuedActions, st.enacted ++ [C.ids k]⟩, false)

/-- The full `ExampleState.handle_execution` loop, driven by the list of keys
the user will type (`cli._query_and_parse_user_key()` results).  Each
iteration first drains `queued_actions` (enacting every queued id), then
handles one key; on `break` the current state is returned immediately,
queue included (the source does not drain it again after `break`). -/
def exampleRun (C : Codec) : List String → ExState → ExState
  | [], st => ⟨st.insertQueue, [], drainQueue st.enacted st.queuedActions⟩
  | k :: ks, st =>
    let st1 : ExState := ⟨st.insertQueue, [], drainQueue st.enacted st.queuedActions⟩
    let r := exampleHandleKey C st1 k
    if r.2 then r.1 else exampleRun C ks r.1

/-- The while-loop of `AgentTurnState.handle_execution`, with
`fuel = max_gen_length - act_idx` remaining iterations.  `getAction` is
`cli.agent.get_action` (first call receives `None` as recurrent state),
`enact` is `cli._env_enact` with `ActionSource.AI`, `eos` is
`cli.agent.eos_token`.  Returns the final environment and the list of
applied action ids in order. -/
def agentTurnGo {ρ σ : Type} (getAction : Option ρ → σ → ρ × Nat)
    (enact : σ → Nat → σ) (eos : Nat) : Nat → Option ρ → σ → σ × List Nat
  | 0, _, env => (env, [])
  | n + 1, rec, env =>
    let r := getAction rec env
    let env2 := enact env r.2
    if r.2 = eos then (env2, [r.2])
    else
      let s := agentTurnGo getAction enact eos n (some r.1) env2
      (s.1, r.2 :: s.2)

/-- `AgentTurnState.handle_execution`: runs the agent loop starting with
`act_idx = 0` and `recurrent_state = None`, bounded by
`maxGen = cli.agent.max_gen_length`. -/
def agentTurn {ρ σ : Type} (getAction : Option ρ → σ → ρ × Nat)
    (enact : σ → Nat → σ) (eos maxGen : Nat) (env : σ) : σ × List Nat :=
  agentTurnGo getAction enact eos maxGen none env

/-- Modelled from the spec: `cli.db.get_actions_since_action_id` lives in
`clica.database`, which is not part of the provided source.  Per the spec,
the log store's `entries_after(sequence_id)` returns all log entries whose
`sequence_id` is strictly greater than the given id, in log order.  An entry
is modelled as `(sequence_id, payload)`. -/
def getActionsSinceActionId {α : Type} (log : List (Nat × α)) (i : Nat) :
    List (Nat × α) :=
  log.filter (fun e => i < e.1)

/-- The training-related fields of the `InteractiveCLI` object used by
`TrainState.train_agent`: `lastTrainedStep` is `cli.last_trained_step`,
`lastTrainedEnv` is `cli.last_trained_env` (the replay baseline the next
training call reads), `lastTrainedEnvState` is `cli.last_trained_env_state`,
`env` is the live workspace `cli.env`, `agent` is `cli.agent`. -/
structure TrainCtx (E A : Type) where
  lastTrainedStep : Nat
  lastTrainedEnv : E
  lastTrainedEnvState : E
  env : E
  agent : A
deriving DecidableEq

/-- `TrainState.train_agent`.  `trainOnActions` models
`cli.agent.train_on_actions(env, actions)`: it returns the (in-place
mutated) agent together with the workspace value the call returns; the
source assigns that return value to `cli.last_trained_env`, then sets
`cli.last_trained_step = actions[-1][0]` and
`cli.last_trained_env_state = copy.deepcopy(cli.env)` (a deep copy is the
value itself in this value-semantics model). -/
def trainAgent {E A α : Type} [DecidableEq α]
    (trainOnActions : A → E → List (Nat × α) → A × E)
    (log : List (Nat × α)) (c : TrainCtx E A) : TrainCtx E A :=
  let actions := getActionsSinceActionId log c.lastTrainedStep
  if h : actions = [] then c
  else
    let env := c.lastTrainedEnv
    let res := trainOnActions c.agent env actions
    { c with
      agent := res.1
      lastTrainedEnv := res.2
      lastTrainedStep := (actions.getLast h).1
      lastTrainedEnvState := c.env }

/-- `MenuState.key_to_state` as a lookup function.  `ctrlP` and `ctrlE` stand
for `KEY_CTRL_P` and `KEY_CTRL_E` from `clica.interface.inputs` (module not
part of the provided source), so they are kept abstract. -/
def keyToState (ctrlP ctrlE : String) (key : String) : Option StateId :=
  if key = "p" then some .prompt
  else if key = ctrlP then some .autoPrompt
  else if key = "," then some .autoPrompt
  else if key = "e" then some .example
  else if key = "t" then some .train
  else if key = "s" then some .saveModel
  else if key = "l" then some .loadModel
  else if key = "\n" then some .agentTurn
  else if key = "\r" then some .agentTurn
  else if key = ctrlE then some .autoSolve
  else if key = "." then some .autoSolve
  else if key = "\x1b" then some .exitProgram
  else if key = "\x03" then some .exitProgram
  else if key = "r" then some .resetSession
  else if key = "v" then some .evalMode
  else none

/-- `MenuState.handle_execution`: looks the key up in `key_to_state`;
otherwise `+`/`=` increment and `-` decrements `cli.curr_reward`; returns
`state or MenuState` together with the updated reward. -/
def menuHandle (ctrlP ctrlE : String) (reward : Int) (key : String) :
    Int × StateId :=
  match keyToState ctrlP ctrlE key with
  | some s => (reward, s)
  | none =>
    if key = "+" || key = "=" then (reward + 1, StateId.menu)
    else if key = "-" then (reward - 1, StateId.menu)
    else (reward, StateId.menu)

/-- The `for selected_model in selected_models` loop of
`LoadModelState.handle_execution`.  `loadOk m` is `true` when
`cli.agent.load` succeeds for model `m`; on success
`cli.loaded_model_name = selected_model`, on failure the error is reported
and the loop continues.  Returns the final `loaded_model_name` and the
trace of load attempts `(model, succeeded)` in order. -/
def loadModelsLoop (loadOk : String → Bool) :
    List String → Option String → Option String × List (String × Bool)
  | [], name => (name, [])
  | m :: rest, name =>
    let ok := loadOk m
    let name2 := if ok then some m else name
    let r := loadModelsLoop loadOk rest name2
    (r.1, (m, ok) :: r.2)

/-- Python falsiness of an optional string (`not cli.model_save_dir`):
`None` and the empty string are falsy. -/
def pyFalsyOptStr : Option String → Bool
  | none => true
  | some s => s.isEmpty

/-- `SaveModelState._generate_default_model_name`:
`f"model_{random_id}"` with `random_id` the freshly drawn 6-character
identifier (passed as a parameter here). -/
def generateDefaultModelName (randomId : String) : String :=
  "model_" ++ randomId

/-- `default_name = cli.loaded_model_name or
SaveModelState._generate_default_model_name()`. -/
def saveDefaultName (loadedName : Option String) (randomId : String) : String :=
  match loadedName with
  | some n => if n.isEmpty then generateDefaultModelName randomId else n
  | none => generateDefaultModelName randomId

/-- `os.path.join(dir, name)` for the simple relative-name case used here. -/
def osPathJoin (a b : String) : String := a ++ "/" ++ b

/-- Observable outcome of one `SaveModelState.handle_execution` call:
the successor state, the path the agent was saved to (if any), the
resulting `cli.loaded_model_name`, and whether an error screen was shown. -/
structure SaveResult where
  next : StateId
  savedPath : Option String
  loadedName : Option String
  errorShown : Bool
deriving DecidableEq

/-- `SaveModelState.handle_execution`.  `saveDir` is `cli.model_save_dir`,
`loadedName` is `cli.loaded_model_name`, `input` is the value returned by
`get_text_input` (`none` when escape was pressed). -/
def saveModelHandle (saveDir loadedName : Option String)
    (input : Option String) : SaveResult :=
  if pyFalsyOptStr saveDir then ⟨.menu, none, loadedName, true⟩
  else
    match input with
    | none => ⟨.menu, none, loadedName, false⟩
    | some name =>
      if name.isEmpty then ⟨.saveModel, none, loadedName, true⟩
      else ⟨.menu, some (osPathJoin (saveDir.getD "") name), some name, false⟩

/-- The value stored in `results[item]` by `EvalState.handle_execution`:
either the dictionary returned by `run_agent_eval`, or
`\x7b"error": str(e), "stack_trace": stack_trace\x7d` when the evaluation
raised. -/
inductive EvalOutcome (R : Type) where
  | ok (result : R)
  | error (msg stackTrace : String)
deriving DecidableEq

/-- Python dict assignment `d[k] = v` on a dict represented as an insertion-
ordered association list: an existing key keeps its position and gets the
new value, a new key is appended at the end. -/
def dictInsert {V : Type} (d : List (String × V)) (k : String) (v : V) :
    List (String × V) :=
  if d.any (fun kv => kv.1 == k) then
    d.map (fun kv => if kv.1 == k then (k, v) else kv)
  else d ++ [(k, v)]

/-- The `for item in selected_items` evaluation loop of
`EvalState.handle_execution`: `results = \x7b\x7d`, then for each item
`results[item]` is set to the captured outcome (`evalOne` models
`run_agent_eval` together with its try/except wrapper). -/
def runEvals {R : Type} (evalOne : String → EvalOutcome R)
    (items : List String) : List (String × EvalOutcome R) :=
  items.foldl (fun results item => dictInsert results item (evalOne item)) []

/-- The tail of `EvalState.handle_execution` once items have been selected:
run all evaluations, then display the results and `return MenuState`. -/
def evalSelectedItems {R : Type} (evalOne : String → EvalOutcome R)
    (items : List String) : List (String × EvalOutcome R) × StateId :=
  (runEvals evalOne items, .menu)

/-- Python `str.strip()` whitespace set: space, tab, newline, carriage
return, vertical tab, form feed. -/
def pyIsSpace (c : Char) : Bool :=
  c = ' ' || c = '\t' || c = '\n' || c = '\r' || c = '\x0b' || c = '\x0c'

/-- Python `s.strip()`: drop leading and trailing whitespace. -/
def pyStrip (s : String) : String :=
  String.mk (((s.toList.dropWhile pyIsSpace).reverse.dropWhile pyIsSpace).reverse)

/-- Observable outcome of one `AutoSolveState.handle_execution` call: the
successor state, whether `generate_solution` was invoked, the action ids
enacted (in order), and the resulting workspace. -/
structure AutoSolveResult (σ : Type) where
  next : StateId
  generatorInvoked : Bool
  appliedActions : List Nat
  env : σ
deriving DecidableEq

/-- `AutoSolveState.handle_execution`.  `gen` models `generate_solution`,
`actionsFromDiff` models the `tokenizer.encode` + `get_actions_from_diff`
pipeline from the solution text to action ids, `enact` is `cli._env_enact`
with `ActionSource.AI`. -/
def autoSolveHandle {σ : Type} (gen : String → String → String → String)
    (actionsFromDiff : String → List Nat) (enact : σ → Nat → σ)
    (instruction code execOutput : String) (env : σ) : AutoSolveResult σ :=
  if (pyStrip instruction).isEmpty then ⟨.menu, false, [], env⟩
  else
    let solution := gen instruction code execOutput
    let actions := actionsFromDiff solution
    ⟨.menu, true, actions, actions.foldl enact env⟩

/-! Concrete instantiations of the external collaborators, used to evaluate
the embedded code on concrete inputs. -/

/-- A concrete codec: a character encodes to its code point. -/
def encW (s : String) : List Nat := s.toList.map Char.toNat

/-- Concrete `convert_tokens_to_ids`: the enter token maps to 1, the run
command to 5, everything else to 9. -/
def idsW (t : String) : Nat :=
  if t = "KEY_ENTER" then 1 else if t = "^r" then 5 else 9

/-- A concrete `Codec` with a single command token `^r`. -/
def CW : Codec := ⟨encW, idsW, ["^r"], "KEY_ENTER", "KEY_CTRL_RIGHT"⟩

/-- A concrete trainer: bumps the agent by one and returns a workspace
distinct from the live one. -/
def toAW (a e : Nat) (_acts : List (Nat × Nat)) : Nat × Nat := (a + 1, e + 100)

/-- A one-entry action log. -/
def logW : List (Nat × Nat) := [(1, 7)]

/-- A two-entry action log with increasing sequence ids. -/
def logW2 : List (Nat × Nat) := [(1, 7), (2, 8)]

/-- A concrete training context: marker 0, baseline snapshot 0, live
workspace 5, agent 0. -/
def ctxW : TrainCtx Nat Nat := ⟨0, 0, 0, 5, 0⟩

/-- A concrete agent policy: the proposed action is the current env plus
one. -/
def getActW (_rec : Option Nat) (env : Nat) : Nat × Nat := (0, env + 1)

/-- A concrete env transition: applying an action replaces the env by it. -/
def enactW2 (_env a : Nat) : Nat := a

/-- A concrete evaluator that fails on item `b` with a message and trace. -/
def evalFnW (i : String) : EvalOutcome Nat :=
  if i = "b" then .error "boom" "trace-of-b" else .ok 1

/-- A concrete solution generator. -/
def genW (_i _c _o : String) : String := "sol"

/-- A concrete diff-to-actions pipeline. -/
def fromDiffW (_s : String) : List Nat := [1, 2]

/-- A concrete env transition for the auto-solve model. -/
def enactW (e a : Nat) : Nat := e + a

/-! Theorems -/

/-- C1: in the Example editing state, typing `h`, `i` and pressing escape
enacts only `encode("hi")`: the commit (enter) action id is appended to the
local `queued_actions` list, but the loop breaks without draining it, so the
commit is never applied — contrary to the claim that the emitted actions are
`encode(buffer) + [commit]`. -/
theorem example_escape_drops_commit :
    exampleRun CW ["h", "i", "\x1b"] ⟨"", [], []⟩
      = ⟨"", [idsW "KEY_ENTER"], encW "hi"⟩
    ∧ idsW "KEY_ENTER" ∉ encW "hi" := by decide

/-- C2: `TrainState.train_agent` does not replace the replay baseline with a
deep copy of the live workspace: on a log with one new entry, the baseline
field `last_trained_env` (read by the next call) receives the value returned
by `train_on_actions` (here 100), which differs from the live workspace
(here 5); the deep copy of the live workspace is written to the separate,
never-read field `last_trained_env_state`. -/
theorem train_snapshot_written_to_dead_field :
    (trainAgent toAW logW ctxW).lastTrainedEnv = 100
    ∧ (trainAgent toAW logW ctxW).lastTrainedEnv ≠ ctxW.env
    ∧ (trainAgent toAW logW ctxW).lastTrainedEnvState = ctxW.env := by decide

/-- The agent-turn loop applies at most `fuel` actions, and an applied action
equal to the end-of-turn marker can only be the last one applied. -/
theorem agentTurnGo_spec {ρ σ : Type} (getAction : Option ρ → σ → ρ × Nat)
    (enact : σ → Nat → σ) (eos : Nat) :
    ∀ (fuel : Nat) (rec : Option ρ) (env : σ),
      (agentTurnGo getAction enact eos fuel rec env).2.length ≤ fuel
      ∧ ∀ x ∈ (agentTurnGo getAction enact eos fuel rec env).2.dropLast, x ≠ eos := by
  intro fuel
  induction fuel with
  | zero =>
    intro rec env
    refine ⟨by simp [agentTurnGo], ?_⟩
    intro x hx
    simp [agentTurnGo] at hx
  | succ n ih =>
    intro rec env
    by_cases he : (getAction rec env).2 = eos
    · have hgo : (agentTurnGo getAction enact eos (n + 1) rec env).2
          = [(getAction rec env).2] := by
        simp [agentTurnGo, he]
      rw [hgo]
      refine ⟨by simp, ?_⟩
      intro x hx
      simp at hx
    · have hgo : (agentTurnGo getAction enact eos (n + 1) rec env).2
          = (getAction rec env).2 ::
            (agentTurnGo getAction enact eos n (some (getAction rec env).1)
              (enact env (getAction rec env).2)).2 := by
        simp [agentTurnGo, he]
      obtain ⟨ih1, ih2⟩ :=
        ih (some (getAction rec env).1) (enact env (getAction rec env).2)
      rw [hgo]
      constructor
      · rw [List.length_cons]
        exact Nat.succ_le_succ ih1
      · intro x hx
        match hs : (agentTurnGo getAction enact eos n (some (getAction rec env).1)
            (enact env (getAction rec env).2)).2 with
        | [] =>
          rw [hs] at hx
          simp at hx
        | b :: t =>
          rw [hs] at hx
          rw [List.dropLast_cons₂] at hx
          rcases List.mem_cons.mp hx with h1 | h2
          · rw [h1]; exact he
          · exact ih2 x (hs ▸ h2)

/-- C4: one invocation of `AgentTurnState.handle_execution` applies at most
`max_gen_length` actions, applies exactly zero when `max_gen_length = 0`,
and every applied action other than the last differs from the agent's
end-of-turn marker (the loop stops immediately after the first marker). -/
theorem agentTurn_cap_and_eos {ρ σ : Type} (getAction : Option ρ → σ → ρ × Nat)
    (enact : σ → Nat → σ) (eos maxGen : Nat) (env : σ) :
    (agentTurn getAction enact eos maxGen env).2.length ≤ maxGen
    ∧ (maxGen = 0 → (agentTurn getAction enact eos maxGen env).2 = [])
    ∧ ∀ x ∈ (agentTurn getAction enact eos maxGen env).2.dropLast, x ≠ eos := by
  obtain ⟨h1, h2⟩ := agentTurnGo_spec getAction enact eos maxGen none env
  refine ⟨h1, ?_, h2⟩
  intro hz
  subst hz
  rfl

/-- C4 witness: with a concrete agent whose second proposed action is the
end-of-turn marker 2 and a cap of 5, the loop applies `[1, 2]`. -/
theorem agentTurn_cap_and_eos_witness :
    (agentTurn getActW enactW2 2 5 0).2.length ≤ 5
    ∧ (5 = 0 → (agentTurn getActW enactW2 2 5 0).2 = [])
    ∧ ∀ x ∈ (agentTurn getActW enactW2 2 5 0).2.dropLast, x ≠ 2 :=
  agentTurn_cap_and_eos getActW enactW2 2 5 0

/-- In a list whose first components are strictly increasing, every element's
first component is at most that of the last element. -/
theorem pairwise_fst_le_getLast {α : Type} :
    ∀ (l : List (Nat × α)) (h : l ≠ []),
      l.Pairwise (fun a b => a.1 < b.1) → ∀ a ∈ l, a.1 ≤ (l.getLast h).1 := by
  intro l
  induction l with
  | nil => intro h; exact absurd rfl h
  | cons x t ih =>
    intro h hp a ha
    match t with
    | [] =>
      have : a = x := by simpa using ha
      rw [this, List.getLast_singleton]
    | y :: u =>
      rw [List.getLast_cons (List.cons_ne_nil y u)]
      rcases List.mem_cons.mp ha with h1 | h2
      · have hlt := (List.pairwise_cons.mp hp).1 ((y :: u).getLast (List.cons_ne_nil y u))
          (List.getLast_mem (List.cons_ne_nil y u))
        rw [h1]
        exact Nat.le_of_lt hlt
      · exact ih (List.cons_ne_nil y u) (List.pairwise_cons.mp hp).2 a h2

/-- After advancing the marker to the last entry returned by
`getActionsSinceActionId`, a second query returns nothing (for a log with
strictly increasing sequence ids). -/
theorem getActionsSince_after_getLast {α : Type} (log : List (Nat × α))
    (hp : log.Pairwise (fun a b => a.1 < b.1)) (m : Nat)
    (h : getActionsSinceActionId log m ≠ []) :
    getActionsSinceActionId log ((getActionsSinceActionId log m).getLast h).1 = [] := by
  have hLp : (getActionsSinceActionId log m).Pairwise (fun a b => a.1 < b.1) :=
    hp.filter _
  have hmem : (getActionsSinceActionId log m).getLast h ∈ getActionsSinceActionId log m :=
    List.getLast_mem h
  have hmemlog : (getActionsSinceActionId log m).getLast h ∈ log :=
    (List.mem_filter.mp hmem).1
  refine List.filter_eq_nil_iff.mpr ?_
  intro a ha
  simp only [decide_eq_true_eq]
  by_cases hma : m < a.1
  · have haL : a ∈ getActionsSinceActionId log m :=
      List.mem_filter.mpr ⟨ha, by simpa using hma⟩
    exact Nat.not_lt.mpr (pairwise_fst_le_getLast _ h hLp a haL)
  · have h1 : a.1 ≤ m := Nat.not_lt.mp hma
    have h2 : m < ((getActionsSinceActionId log m).getLast h).1 := by
      have := (List.mem_filter.mp hmem).2
      simpa using this
    exact Nat.not_lt.mpr (Nat.le_of_lt (Nat.lt_of_le_of_lt h1 h2))

/-- `TrainState.train_agent` with no log entries after the marker is the
identity on the training context. -/
theorem trainAgent_eq_self_of_empty {E A α : Type} [DecidableEq α]
    (toA : A → E → List (Nat × α) → A × E) (log : List (Nat × α))
    (c : TrainCtx E A)
    (h : getActionsSinceActionId log c.lastTrainedStep = []) :
    trainAgent toA log c = c := by
  simp only [trainAgent]
  rw [dif_pos h]

/-- C3: `TrainState.train_agent` never decreases the checkpoint marker; when
the log store returns no entries after the marker it leaves the whole
training context (marker, snapshot, agent, workspace) unchanged; and on a
log with strictly increasing sequence ids an immediately repeated call is a
no-op. -/
theorem trainAgent_marker_monotone_and_noop {E A α : Type} [DecidableEq α]
    (toA : A → E → List (Nat × α) → A × E) (log : List (Nat × α))
    (c : TrainCtx E A) (hp : log.Pairwise (fun a b => a.1 < b.1)) :
    c.lastTrainedStep ≤ (trainAgent toA log c).lastTrainedStep
    ∧ (getActionsSinceActionId log c.lastTrainedStep = [] →
        trainAgent toA log c = c)
    ∧ trainAgent toA log (trainAgent toA log c) = trainAgent toA log c := by
  by_cases h : getActionsSinceActionId log c.lastTrainedStep = []
  · have h1 : trainAgent toA log c = c := trainAgent_eq_self_of_empty toA log c h
    refine ⟨by rw [h1], fun _ => h1, ?_⟩
    rw [h1, h1]
  · have hstep : (trainAgent toA log c).lastTrainedStep
        = ((getActionsSinceActionId log c.lastTrainedStep).getLast h).1 := by
      simp only [trainAgent]
      rw [dif_neg h]
    have hmono : c.lastTrainedStep ≤ (trainAgent toA log c).lastTrainedStep := by
      rw [hstep]
      have hmem := List.getLast_mem h
      have := (List.mem_filter.mp hmem).2
      have hlt : c.lastTrainedStep
          < ((getActionsSinceActionId log c.lastTrainedStep).getLast h).1 := by
        simpa using this
      exact Nat.le_of_lt hlt
    have hnone : getActionsSinceActionId log
        (trainAgent toA log c).lastTrainedStep = [] := by
      rw [hstep]
      exact getActionsSince_after_getLast log hp c.lastTrainedStep h
    have hsecond : trainAgent toA log (trainAgent toA log c) = trainAgent toA log c :=
      trainAgent_eq_self_of_empty toA log (trainAgent toA log c) hnone
    exact ⟨hmono, fun hcon => absurd hcon h, hsecond⟩

/-- C3 witness: on the two-entry log with ids 1, 2 and marker 0, the
monotonicity and no-op properties hold concretely. -/
theorem trainAgent_marker_monotone_and_noop_witness :
    ctxW.lastTrainedStep ≤ (trainAgent toAW logW2 ctxW).lastTrainedStep
    ∧ (getActionsSinceActionId logW2 ctxW.lastTrainedStep = [] →
        trainAgent toAW logW2 ctxW = ctxW)
    ∧ trainAgent toAW logW2 (trainAgent toAW logW2 ctxW) = trainAgent toAW logW2 ctxW :=
  trainAgent_marker_monotone_and_noop toAW logW2 ctxW (by decide)

/-- C5: in the Example editing state, when a command token other than escape,
resize and the insert-block key arrives while the text buffer is non-empty
(and the action queue has been drained, as it always is when a key is read),
the queued actions become exactly `encode(buffer)` followed by the commit
(enter) id and then the id of the command key, in that order, and the buffer
is cleared; nothing is enacted in this step. -/
theorem example_command_key_flushes (C : Codec) (st : ExState) (k : String)
    (hq : st.queuedActions = []) (hbuf : st.insertQueue.length > 0)
    (hk : C.cmds.contains k = true)
    (h1 : k ≠ "\x1b") (h2 : k ≠ "KEY_RESIZE") (h3 : k ≠ C.ctrlRightTok) :
    exampleHandleKey C st k =
      (⟨"", C.enc st.insertQueue ++ [C.ids C.enterTok, C.ids k],
        st.enacted⟩, false) := by
  have hk' : k ∈ C.cmds := by simpa using hk
  simp [exampleHandleKey, h1, h2, h3, hk', hq, hbuf]

/-- C5 witness: with the concrete codec `CW`, buffer `"hi"` and command key
`^r`, the queued actions are `encode("hi") ++ [enter, ^r]` and the buffer is
cleared. -/
theorem example_command_key_flushes_witness :
    exampleHandleKey CW ⟨"hi", [], []⟩ "^r" =
      (⟨"", CW.enc "hi" ++ [CW.ids CW.enterTok, CW.ids "^r"], []⟩, false) :=
  example_command_key_flushes CW ⟨"hi", [], []⟩ "^r" rfl (by decide) (by decide)
    (by decide) (by decide) (by decide)

/-- C6: in the Menu state, `+` and `=` increment the pending reward by
exactly one, `-` decrements it by exactly one, and in these cases — as for
any key that `key_to_state` does not recognise — the successor state is the
Menu itself.  `ctrlP`/`ctrlE` are the (unknown) control-key strings, assumed
distinct from the reward keys. -/
theorem menu_reward_and_unknown_keys (ctrlP ctrlE : String) (r : Int)
    (hp1 : ctrlP ≠ "+") (hp2 : ctrlP ≠ "=") (hp3 : ctrlP ≠ "-")
    (he1 : ctrlE ≠ "+") (he2 : ctrlE ≠ "=") (he3 : ctrlE ≠ "-") :
    menuHandle ctrlP ctrlE r "+" = (r + 1, StateId.menu)
    ∧ menuHandle ctrlP ctrlE r "=" = (r + 1, StateId.menu)
    ∧ menuHandle ctrlP ctrlE r "-" = (r - 1, StateId.menu)
    ∧ ∀ k, keyToState ctrlP ctrlE k = none →
        (menuHandle ctrlP ctrlE r k).2 = StateId.menu := by
  have hp1' : ("+" : String) ≠ ctrlP := fun hc => hp1 hc.symm
  have hp2' : ("=" : String) ≠ ctrlP := fun hc => hp2 hc.symm
  have hp3' : ("-" : String) ≠ ctrlP := fun hc => hp3 hc.symm
  have he1' : ("+" : String) ≠ ctrlE := fun hc => he1 hc.symm
  have he2' : ("=" : String) ≠ ctrlE := fun hc => he2 hc.symm
  have he3' : ("-" : String) ≠ ctrlE := fun hc => he3 hc.symm
  refine ⟨?_, ?_, ?_, ?_⟩
  · simp [menuHandle, keyToState, hp1', he1']
  · simp [menuHandle, keyToState, hp2', he2']
  · simp [menuHandle, keyToState, hp3', he3']
  · intro k hk
    simp only [menuHandle, hk]
    split
    · rfl
    · split
      · rfl
      · rfl

/-- C6 witness: with the conventional control characters for ctrl+p and
ctrl+e and reward 0, the reward keys behave as claimed and the unknown key
case stays in the Menu. -/
theorem menu_reward_and_unknown_keys_witness :
    menuHandle "\x10" "\x05" 0 "+" = (0 + 1, StateId.menu)
    ∧ menuHandle "\x10" "\x05" 0 "=" = (0 + 1, StateId.menu)
    ∧ menuHandle "\x10" "\x05" 0 "-" = (0 - 1, StateId.menu)
    ∧ ∀ k, keyToState "\x10" "\x05" k = none →
        (menuHandle "\x10" "\x05" 0 k).2 = StateId.menu :=
  menu_reward_and_unknown_keys "\x10" "\x05" 0 (by decide) (by decide)
    (by decide) (by decide) (by decide) (by decide)

/-- `getLast?` of a cons in terms of the tail's `getLast?`. -/
theorem getLast?_cons_getD {α : Type} (a : α) (l : List α) :
    (a :: l).getLast? = some (l.getLast?.getD a) := by
  induction l generalizing a with
  | nil => rfl
  | cons b t ih =>
    rw [List.getLast?_cons_cons, ih b]
    simp

/-- C7: the load-model loop attempts every selected model in selection order
(a failing load is recorded and does not abort the rest), and the final
remembered loaded-model name is the last model whose load succeeded — or the
previous name when every load fails. -/
theorem loadModels_order_and_last_success (loadOk : String → Bool)
    (models : List String) (name : Option String) :
    (loadModelsLoop loadOk models name).2
      = models.map (fun m => (m, loadOk m))
    ∧ (loadModelsLoop loadOk models name).1
      = ((models.filter loadOk).getLast?).elim name some := by
  induction models generalizing name with
  | nil => exact ⟨rfl, rfl⟩
  | cons m rest ih =>
    constructor
    · simp [loadModelsLoop, (ih _).1]
    · cases hm : loadOk m with
      | true =>
        have hrec := (ih (some m)).2
        simp only [loadModelsLoop, hm, if_true]
        rw [hrec, List.filter_cons_of_pos (by simp [hm]), getLast?_cons_getD]
        cases hx : (rest.filter loadOk).getLast? with
        | none => simp [hx]
        | some x => simp [hx]
      | false =>
        have hrec := (ih name).2
        simp only [loadModelsLoop, hm, Bool.false_eq_true, if_false]
        rw [hrec, List.filter_cons_of_neg (by simp [hm])]

/-- C8: `SaveModelState.handle_execution`: with no configured save directory
it shows an error and returns to the Menu without saving; an empty entered
name re-prompts (returns the SaveModel state itself) without saving; a
non-empty name saves under `directory/name`, remembers that name as loaded,
and returns to the Menu; and the default name offered is the loaded model
name when one is set, else `model_` followed by the fresh random
identifier. -/
theorem saveModel_spec (saveDir loadedName : Option String)
    (input : Option String) (dir name n randomId : String) :
    (pyFalsyOptStr saveDir = true →
      saveModelHandle saveDir loadedName input
        = ⟨.menu, none, loadedName, true⟩)
    ∧ (¬dir.isEmpty →
      saveModelHandle (some dir) loadedName (some "")
        = ⟨.saveModel, none, loadedName, true⟩)
    ∧ (¬dir.isEmpty → ¬name.isEmpty →
      saveModelHandle (some dir) loadedName (some name)
        = ⟨.menu, some (osPathJoin dir name), some name, false⟩)
    ∧ saveDefaultName none randomId = generateDefaultModelName randomId
    ∧ (¬n.isEmpty → saveDefaultName (some n) randomId = n) := by
  refine ⟨?_, ?_, ?_, rfl, ?_⟩
  · intro h
    simp [saveModelHandle, h]
  · intro hd
    have hd' : dir.isEmpty = false := Bool.eq_false_iff.mpr hd
    simp [saveModelHandle, pyFalsyOptStr, hd']
    decide
  · intro hd hn
    have hd' : dir.isEmpty = false := Bool.eq_false_iff.mpr hd
    simp [saveModelHandle, pyFalsyOptStr, hd', hn]
  · intro hn
    simp [saveDefaultName, hn]

/-- C8 witness: concrete runs of the three save paths and the default-name
rule. -/
theorem saveModel_spec_witness :
    (pyFalsyOptStr none = true →
      saveModelHandle none (some "old") (some "x")
        = ⟨.menu, none, some "old", true⟩)
    ∧ (¬("d" : String).isEmpty →
      saveModelHandle (some "d") (some "old") (some "")
        = ⟨.saveModel, none, some "old", true⟩)
    ∧ (¬("d" : String).isEmpty → ¬("m1" : String).isEmpty →
      saveModelHandle (some "d") (some "old") (some "m1")
        = ⟨.menu, some (osPathJoin "d" "m1"), some "m1", false⟩)
    ∧ saveDefaultName none "abc123" = generateDefaultModelName "abc123"
    ∧ (¬("old" : String).isEmpty → saveDefaultName (some "old") "abc123" = "old") :=
  saveModel_spec none (some "old") (some "x") "d" "m1" "old" "abc123"

/-- Inserting a fresh key into a dict appends it; folding the evaluation
loop over items with keys disjoint from the accumulator appends one result
per item, in order. -/
theorem runEvals_go {R : Type} (evalOne : String → EvalOutcome R) :
    ∀ (items : List String) (d : List (String × EvalOutcome R)),
      (∀ i ∈ items, d.any (fun kv => kv.1 == i) = false) → items.Nodup →
      items.foldl (fun results item => dictInsert results item (evalOne item)) d
        = d ++ items.map (fun i => (i, evalOne i)) := by
  intro items
  induction items with
  | nil =>
    intro d _ _
    simp
  | cons i rest ih =>
    intro d hd hnd
    rw [List.foldl_cons]
    have hi : d.any (fun kv => kv.1 == i) = false := hd i (by simp)
    have hins : dictInsert d i (evalOne i) = d ++ [(i, evalOne i)] := by
      simp only [dictInsert, hi]
      rw [if_neg (by simp [hi])]
    rw [hins]
    obtain ⟨hni, hndr⟩ := List.nodup_cons.mp hnd
    have hd' : ∀ j ∈ rest, (d ++ [(i, evalOne i)]).any (fun kv => kv.1 == j) = false := by
      intro j hj
      rw [List.any_append]
      have h1 := hd j (List.mem_cons_of_mem _ hj)
      have hij : i ≠ j := fun hc => hni (hc ▸ hj)
      simp [h1, hij]
    rw [ih (d ++ [(i, evalOne i)]) hd' hndr]
    simp

/-- C9: once items are selected for evaluation, every selected item produces
exactly one recorded result, in selection order — a raised exception is
recorded as that item's `error` outcome (message and stack trace) and does
not stop the remaining items — and the state then returns to the Menu. -/
theorem evalSelected_per_item {R : Type} (evalOne : String → EvalOutcome R)
    (items : List String) (h : items.Nodup) :
    (evalSelectedItems evalOne items).1 = items.map (fun i => (i, evalOne i))
    ∧ (evalSelectedItems evalOne items).2 = StateId.menu := by
  refine ⟨?_, rfl⟩
  have hgo := runEvals_go evalOne items [] (by simp) h
  simpa [evalSelectedItems, runEvals] using hgo

/-- C9 witness: evaluating `a`, `b`, `c` where `b` raises records one
outcome per item, with `b` mapped to its error message and stack trace. -/
theorem evalSelected_per_item_witness :
    (evalSelectedItems evalFnW ["a", "b", "c"]).1
      = (["a", "b", "c"] : List String).map (fun i => (i, evalFnW i))
    ∧ (evalSelectedItems evalFnW ["a", "b", "c"]).2 = StateId.menu :=
  evalSelected_per_item evalFnW ["a", "b", "c"] (by decide)

/-- A string all of whose characters are Python whitespace strips to the
empty string. -/
theorem pyStrip_of_all_space (s : String)
    (h : ∀ c ∈ s.toList, pyIsSpace c = true) : pyStrip s = "" := by
  have h1 : s.toList.dropWhile pyIsSpace = [] :=
    List.dropWhile_eq_nil_iff.mpr h
  rw [pyStrip, h1]
  rfl

/-- C10: when the current instruction is empty or consists only of
whitespace, `AutoSolveState.handle_execution` returns to the Menu at once:
the solution generator is not invoked, no action is applied, and the
workspace is unchanged. -/
theorem autoSolve_blank_instruction_noop {σ : Type}
    (gen : String → String → String → String)
    (actionsFromDiff : String → List Nat) (enact : σ → Nat → σ)
    (instruction code execOutput : String) (env : σ)
    (h : ∀ c ∈ instruction.toList, pyIsSpace c = true) :
    autoSolveHandle gen actionsFromDiff enact instruction code execOutput env
      = ⟨.menu, false, [], env⟩ := by
  have hs := pyStrip_of_all_space instruction h
  simp [autoSolveHandle, hs]
  decide

/-- C10 witness: a whitespace-only instruction leaves the concrete workspace
0 untouched and goes back to the Menu. -/
theorem autoSolve_blank_instruction_noop_witness :
    autoSolveHandle genW fromDiffW enactW " \t " "code" "out" 0
      = ⟨.menu, false, [], 0⟩ :=
  autoSolve_blank_instruction_noop genW fromDiffW enactW " \t " "code" "out" 0
    (by decide)
